import Mathlib

/-
  Verification development for the qdb document store.

  The embedding models the caching/consistency layer and the in-memory
  Selection operators:
    - `RestrictedCacheStrategy.patch` from
      src/Sources/Enumerations/CacheStrategies/RestrictedCacheStrategy.js
    - `Connection.fetch` / `Connection.set` / the array and utility helpers
      from src/Sources/Structures/Selection.js (Connection part)
    - `Selection.limit` / `Selection.join` from
      src/Sources/Structures/Selection.js (Selection part)

  Documents are JSON-like trees; the backing store and the in-memory cache
  are association lists from root keys to documents, which matches the
  key-ordered `Map`/table semantics of the source.  The `Generics` path
  helpers, the base `CacheStrategy` and the `Schema` collaborator are not
  part of the provided sources; their definitions are modelled from the
  spec and carry a doc comment saying so.
-/

set_option autoImplicit false

universe u

/-- A JSON-like document: the value stored under one root key, or any nested
value inside it.  Objects are insertion-ordered field lists, mirroring
JavaScript object semantics. -/
inductive Document where
  | null
  | bool (b : Bool)
  | num (n : Int)
  | str (s : String)
  | arr (elements : List Document)
  | obj (fields : List (String × Document))

/-- First-match association-list lookup, the model of `Map#get` and of
JavaScript property access on insertion-ordered objects. -/
def alookup {α : Type u} (k : String) : List (String × α) → Option α
  | [] => none
  | p :: rest => if p.1 = k then some p.2 else alookup k rest

/-- Insert-or-replace, the model of `Map#set` and of JavaScript property
assignment: an existing key keeps its position, a new key is appended. -/
def upsert {α : Type u} (k : String) (v : α) : List (String × α) → List (String × α)
  | [] => [(k, v)]
  | p :: rest => if p.1 = k then (k, v) :: rest else p :: upsert k v rest

/-- Replace the value at a key, leaving the list unchanged if the key is
absent; the model of mutating a document object found by `Map#get`. -/
def areplace {α : Type u} (k : String) (v : α) : List (String × α) → List (String × α)
  | [] => []
  | p :: rest => if p.1 = k then (k, v) :: rest else p :: areplace k v rest

/-- Delete a set of keys; the model of eviction victims being removed from
the memory map. -/
def eraseKeys {α : Type u} (victims : List String) (l : List (String × α)) :
    List (String × α) :=
  l.filter (fun p => !(victims.contains p.1))

/-- Generics.isDataModel: a valid root document is a structured container
(object or array), never a bare scalar. -/
def isDataModel : Document → Bool
  | .obj _ => true
  | .arr _ => true
  | _ => false

/-- JavaScript truthiness of a document value. -/
def truthy : Document → Bool
  | .null => false
  | .bool b => b
  | .num n => decide (n ≠ 0)
  | .str s => decide (s ≠ "")
  | .arr _ => true
  | .obj _ => true

/-- Whether an object document has a root-level field with the given name. -/
def hasField (k : String) : Document → Bool
  | .obj fields => fields.any (fun p => decide (p.1 = k))
  | _ => false

/-- Modelled from the spec: base CacheStrategy bookkeeping (the base class is
not under src/).  A patched entry carries a `_timestamp` field recording when
it was last resolved or patched; scalars cannot carry fields. -/
def withTimestamp (t : Nat) : Document → Document
  | .obj fields => .obj (upsert "_timestamp" (.num (Int.ofNat t)) fields)
  | d => d

/-- Removal of the `_timestamp` bookkeeping field (`delete doc._timestamp`),
applied by `fetch` to root-level returns. -/
def stripTimestamp : Document → Document
  | .obj fields => .obj (fields.filter (fun p => !(decide (p.1 = "_timestamp"))))
  | d => d

/-- Modelled from the spec: Generics.clone (not under src/) deep-copies a
document so callers cannot mutate cache state through a return value.  In a
value-semantics embedding a deep copy is observationally the value itself. -/
def clone (d : Document) : Document := d

/-- Digit accumulator for non-negative integer path segments. -/
def digitsToNat : List Char → Nat → Option Nat
  | [], acc => some acc
  | ch :: rest, acc =>
    if '0' ≤ ch ∧ ch ≤ '9' then digitsToNat rest (acc * 10 + (ch.toNat - '0'.toNat))
    else none

/-- Parse a path segment as a non-negative integer array index. -/
def segToNat : String → Option Nat
  | s => match s.data with
    | [] => none
    | cs => digitsToNat cs 0

/-- Accumulator-based splitting of a path specifier on the dot separator,
collapsing runs of dots (the source splits on the regex of one or more
dots). -/
def splitSegs (acc : List Char) : List Char → List String
  | [] => if acc.isEmpty then [] else [String.mk acc.reverse]
  | ch :: rest =>
    if ch = '.' then
      if acc.isEmpty then splitSegs [] rest
      else String.mk acc.reverse :: splitSegs [] rest
    else splitSegs (ch :: acc) rest

/-- Modelled from the spec: Generics.resolveKeyPath (not under src/) parses a
path specifier into the root key followed by the ordered nested segments,
splitting on the dot separator. -/
def resolveKeyPath (pathlike : String) : List String :=
  splitSegs [] pathlike.data

/-- The root key of a path specifier (first resolved segment). -/
def rootKey (pathlike : String) : String :=
  (resolveKeyPath pathlike).headD ""

/-- The nested segments of a path specifier (everything after the root key). -/
def nestedPath (pathlike : String) : List String :=
  (resolveKeyPath pathlike).tail

/-- Error kinds raised synchronously by the connection layer. -/
inductive QdbError where
  | invalidDocument
  | typeError

/-- Modelled from the spec: the container PathResolver creates for a missing
intermediate segment - a sequence when the next segment is a non-negative
integer index, an object otherwise. -/
def freshContainer : List String → Document
  | next :: _ => if (segToNat next).isSome then .arr [] else .obj []
  | [] => .obj []

/-- Assignment into a list at an index, extending with nulls past the end
(JavaScript hole semantics after serialization). -/
def listSetExtend : List Document → Nat → Document → List Document
  | [], 0, v => [v]
  | [], Nat.succ n, v => .null :: listSetExtend [] n v
  | _ :: rest, 0, v => v :: rest
  | x :: rest, Nat.succ n, v => x :: listSetExtend rest n v

/-- Modelled from the spec: Generics.pathCast in read mode (not under src/).
Walks the container one segment at a time, returning the undefined-equivalent
if an intermediate segment is absent or a non-container is traversed. -/
def pathCastGet : Document → List String → Option Document
  | d, [] => some d
  | .obj fields, k :: rest =>
    match alookup k fields with
    | some child => pathCastGet child rest
    | none => none
  | .arr xs, k :: rest =>
    match segToNat k with
    | some i =>
      match xs.get? i with
      | some child => pathCastGet child rest
      | none => none
    | none => none
  | _, _ :: _ => none

/-- Modelled from the spec: Generics.pathCast in write mode (not under src/).
Walks the container, creating missing intermediate containers before
assigning the final segment, and fails with `InvalidDocumentError` when the
write traverses a non-container intermediate.  Returns the updated root. -/
def pathCastSet : Document → List String → Document → Except QdbError Document
  | _, [], v => .ok v
  | .obj fields, k :: rest, v =>
    match pathCastSet ((alookup k fields).getD (freshContainer rest)) rest v with
    | .error e => .error e
    | .ok child => .ok (.obj (upsert k child fields))
  | .arr xs, k :: rest, v =>
    match segToNat k with
    | some i =>
      match pathCastSet ((xs.get? i).getD (freshContainer rest)) rest v with
      | .error e => .error e
      | .ok child => .ok (.arr (listSetExtend xs i child))
    | none => .error .invalidDocument
  | _, _ :: _, _ => .error .invalidDocument

/-- The in-memory cache map and the backing-store table share this shape:
root key to document, in insertion order. -/
abbrev MemoryStore := List (String × Document)

/-- An eviction policy: given the current memory map it names the victims to
evict and returns whether the admission may proceed.  Modelled from the spec
(the concrete policies are not under src/): the policy either frees slots and
returns true, or refuses the admission. -/
abbrev EvictionAlg := MemoryStore → List String × Bool

/-- Whether a key is resident in a map (`Map#has`). -/
def memHas (k : String) (m : MemoryStore) : Bool :=
  (alookup k m).isSome

/-- Modelled from the spec: the base CacheStrategy `patch` (not under src/)
admits every entry unconditionally, storing the document together with its
bookkeeping timestamp. -/
def CacheStrategy.basePatch (m : MemoryStore) (keyContext : String)
    (document : Document) (t : Nat) : MemoryStore :=
  upsert keyContext (withTimestamp t document) m

/-- Whether a bounded cache is at or past its capacity
(`maxSize !== Infinity && size >= maxSize`); `none` models Infinity. -/
def maxSizeReached : Option Nat → MemoryStore → Bool
  | none, _ => false
  | some n, m => decide (n ≤ m.length)

/-- RestrictedCacheStrategy.patch: on a patch for a new key with the map at
capacity, consult the eviction algorithm; admission proceeds on the map with
the victims removed if it returns true and is silently dropped otherwise.
Updating an existing key, or patching below capacity, always admits. -/
def RestrictedCacheStrategy.patch (maxSize : Option Nat)
    (evictionAlgorithm : EvictionAlg) (m : MemoryStore) (keyContext : String)
    (document : Document) (t : Nat) : MemoryStore :=
  if maxSizeReached maxSize m && !(memHas keyContext m) then
    match evictionAlgorithm m with
    | (victims, true) =>
      CacheStrategy.basePatch (eraseKeys victims m) keyContext document t
    | (_, false) => m
  else CacheStrategy.basePatch m keyContext document t

/-- The cache-strategy variants selectable at construction time. -/
inductive CacheStrategyKind where
  | managed
  | restricted (maxSize : Option Nat) (evictionAlgorithm : EvictionAlg)

/-- The Connection configuration options relevant to the modelled
operations, with the source's defaults captured by `baseConfig`.
`dataSchema` is modelled from the spec: a Schema collaborator (not under
src/) exposes a `model` default document; only that model is consulted by
these operations. -/
structure QDBConfiguration where
  cache : CacheStrategyKind
  insertionCache : Bool
  utilityCache : Bool
  fetchAll : Option Int
  unsafeAssumeCache : Bool
  dataSchema : Option Document
  defaults : Bool

/-- The mutable state of one Connection: the backing-store table, the cache
strategy's memory map, and a logical clock supplying timestamps. -/
structure DbState where
  store : MemoryStore
  memory : MemoryStore
  clock : Nat

/-- Options accepted by `Connection.fetch`. -/
structure FetchOpts where
  cache : Bool
  assumeCache : Bool
  defaults : Bool

/-- The `fetchAll > 0` test from the source (`null > 0` is false). -/
def fetchAllPositive (cfg : QDBConfiguration) : Bool :=
  match cfg.fetchAll with
  | some n => decide (0 < n)
  | none => false

/-- Dispatch a cache admission to the configured strategy and advance the
clock. -/
def patchConn (cfg : QDBConfiguration) (s : DbState) (keyContext : String)
    (document : Document) : DbState :=
  match cfg.cache with
  | .managed =>
    { s with memory := CacheStrategy.basePatch s.memory keyContext document s.clock,
             clock := s.clock + 1 }
  | .restricted maxSize alg =>
    { s with memory := RestrictedCacheStrategy.patch maxSize alg s.memory keyContext
               document s.clock,
             clock := s.clock + 1 }

/-- The cache-first read at the heart of `Connection.fetch`: consult the
memory map, fall back to the backing store, conditionally admit the fetched
document, then clone, project the nested path, and strip the bookkeeping
timestamp from data-model results. -/
def fetchCore (cfg : QDBConfiguration) (s : DbState) (keyContext : String)
    (path : List String) (cache : Bool) : Option Document × DbState :=
  let fetched : Option Document :=
    match alookup keyContext s.memory with
    | some d => some d
    | none => alookup keyContext s.store
  match fetched with
  | none => (none, s)
  | some f =>
    let s₁ := if cache && !(memHas keyContext s.memory) then patchConn cfg s keyContext f
              else s
    let documentClone := clone f
    let projected := if path.isEmpty then some documentClone
                     else pathCastGet documentClone path
    (projected.map (fun d => if isDataModel d then stripTimestamp d else d), s₁)

/-- Connection.fetch.  With `assumeCache` the result comes from the memory
map alone, without cloning or timestamp stripping.  With `defaults` and a
schema, a miss materializes the schema model's sub-value (optionally
admitting the model to the cache) instead of the undefined-equivalent. -/
def Connection.fetch (cfg : QDBConfiguration) (s : DbState) (pathlike : String)
    (o : FetchOpts) : Option Document × DbState :=
  let keyContext := rootKey pathlike
  let path := nestedPath pathlike
  if o.assumeCache then
    match alookup keyContext s.memory with
    | none => (none, s)
    | some cachedObject => (pathCastGet cachedObject path, s)
  else
    match o.defaults, cfg.dataSchema with
    | true, some model =>
      match fetchCore cfg s keyContext path o.cache with
      | (some value, s₁) => (some value, s₁)
      | (none, s₁) =>
        if truthy model then
          let s₂ := if o.cache && !(memHas keyContext s₁.memory) then
                      patchConn cfg s₁ keyContext model
                    else s₁
          (pathCastGet model path, s₂)
        else (none, s₁)
    | _, _ => fetchCore cfg s keyContext path o.cache

/-- Connection.exists: a fetch whose options object carries only the `cache`
flag, so `assumeCache` and `defaults` take their configured values. -/
def Connection.existsEntry (cfg : QDBConfiguration) (s : DbState)
    (pathlike : String) (cache : Bool) : Bool × DbState :=
  match Connection.fetch cfg s pathlike
      { cache := cache, assumeCache := cfg.unsafeAssumeCache, defaults := cfg.defaults } with
  | (v, s₁) => (v.isSome, s₁)

/-- The options `fetch` actually receives when a call site passes the boolean
`this.configuration.utilityCache` in the options position (the array and
utility helpers do this): destructuring a primitive leaves every option at
its declared default, so `cache` is true regardless of the flag's value. -/
def boolOptionsFetch (cfg : QDBConfiguration) (_flag : Bool) : FetchOpts :=
  { cache := true, assumeCache := cfg.unsafeAssumeCache, defaults := cfg.defaults }

/-- The defaults of a `fetch` call made with no options object at all. -/
def defaultFetchOpts (cfg : QDBConfiguration) : FetchOpts :=
  { cache := true, assumeCache := cfg.unsafeAssumeCache, defaults := cfg.defaults }

/-- The write-through tail of `Connection.set`: persist the root document to
the backing store, then refresh the cache entry when the cache flag is set,
fetch-all mode is on, or the key is already resident. -/
def finishSet (cfg : QDBConfiguration) (s : DbState) (keyContext : String)
    (document : Document) (cache : Bool) : DbState :=
  let s₁ := { s with store := upsert keyContext document s.store }
  if cache || fetchAllPositive cfg || memHas keyContext s₁.memory then
    patchConn cfg s₁ keyContext document
  else s₁

/-- The non-defaults body of `Connection.set`: a nested path first fetches
the current root document (empty object if absent) and applies the nested
write; a root-level write requires the supplied value to be a data model. -/
def setCore (cfg : QDBConfiguration) (s : DbState) (keyContext : String)
    (path : List String) (document : Document) (cache : Bool) :
    Except QdbError Unit × DbState :=
  match path with
  | [] =>
    if isDataModel document then (.ok (), finishSet cfg s keyContext document cache)
    else (.error .invalidDocument, s)
  | _ :: _ =>
    match Connection.fetch cfg s keyContext (defaultFetchOpts cfg) with
    | (old, s₁) =>
      match pathCastSet (old.getD (.obj [])) path document with
      | .error e => (.error e, s₁)
      | .ok newDocument => (.ok (), finishSet cfg s₁ keyContext newDocument cache)

/-- Connection.set.  When the per-call defaults flag is on, a schema exists
and the key is absent, the nested write is applied into a copy of the schema
model and the result is persisted with defaults off; otherwise the plain
body runs. -/
def Connection.set (cfg : QDBConfiguration) (s : DbState) (pathlike : String)
    (document : Document) (cache defaults : Bool) : Except QdbError Unit × DbState :=
  let keyContext := rootKey pathlike
  let path := nestedPath pathlike
  match defaults, cfg.dataSchema with
  | true, some model =>
    match Connection.existsEntry cfg s keyContext cfg.utilityCache with
    | (true, s₁) => setCore cfg s₁ keyContext path document cache
    | (false, s₁) =>
      match (if path.isEmpty then Except.ok (clone model)
             else pathCastSet (clone model) path document) with
      | .error e => (.error e, s₁)
      | .ok merged => setCore cfg s₁ keyContext [] merged cache
  | _, _ => setCore cfg s keyContext path document cache

/-- Connection.push: fetch the addressed array (boolean passed in the options
position), append, write back through `set`, and return the new length. -/
def Connection.push (cfg : QDBConfiguration) (s : DbState) (pathlike : String)
    (values : List Document) : Except QdbError Nat × DbState :=
  match Connection.fetch cfg s pathlike (boolOptionsFetch cfg cfg.utilityCache) with
  | (some (.arr xs), s₁) =>
    let sourceArray := xs ++ values
    match Connection.set cfg s₁ pathlike (.arr sourceArray) cfg.insertionCache cfg.defaults with
    | (.ok _, s₂) => (.ok sourceArray.length, s₂)
    | (.error e, s₂) => (.error e, s₂)
  | (_, s₁) => (.error .typeError, s₁)

/-- Connection.modify: fetch the current value, apply the callback, set the
result, then re-fetch and return the up-to-date root document. -/
def Connection.modify (cfg : QDBConfiguration) (s : DbState) (pathlike : String)
    (newEntityCallback : Option Document → Document) :
    Except QdbError (Option Document) × DbState :=
  match Connection.fetch cfg s pathlike (boolOptionsFetch cfg cfg.utilityCache) with
  | (sourceEntity, s₁) =>
    match Connection.set cfg s₁ pathlike (newEntityCallback sourceEntity)
        cfg.insertionCache cfg.defaults with
    | (.error e, s₂) => (.error e, s₂)
    | (.ok _, s₂) =>
      match Connection.fetch cfg s₂ (rootKey pathlike) (boolOptionsFetch cfg cfg.utilityCache) with
      | (v, s₃) => (.ok v, s₃)

/-- JavaScript truthiness of a fetch result; the undefined-equivalent is
falsy. -/
def truthyOpt : Option Document → Bool
  | some d => truthy d
  | none => false

/-- Connection.invert: fetch, logically negate (the negation of the
undefined-equivalent is true), set the boolean back, return it. -/
def Connection.invert (cfg : QDBConfiguration) (s : DbState) (pathlike : String) :
    Except QdbError Bool × DbState :=
  let fetched := Connection.fetch cfg s pathlike (boolOptionsFetch cfg cfg.utilityCache)
  let inversion := !(truthyOpt fetched.1)
  let written := Connection.set cfg fetched.2 pathlike (.bool inversion)
    cfg.insertionCache cfg.defaults
  match written.1 with
  | .error e => (.error e, written.2)
  | .ok _ => (.ok inversion, written.2)

/-- An in-memory working set of documents with the table name it holds. -/
structure Selection where
  cache : MemoryStore
  holds : String

/-- The sweep loop of `Selection.limit`: walk the entries with a pointer and
delete those satisfying the exclusion test as written in the source. -/
def limitSweep (extractionStartOffset amount : Int) :
    Int → MemoryStore → MemoryStore
  | _, [] => []
  | pointer, p :: rest =>
    if extractionStartOffset > pointer ∧ pointer ≥ extractionStartOffset + amount then
      limitSweep extractionStartOffset amount (pointer + 1) rest
    else p :: limitSweep extractionStartOffset amount (pointer + 1) rest

/-- Selection.limit: the single-argument form (or a falsy amount) treats the
first argument as the amount with offset zero. -/
def Selection.limit (s : Selection) (extractionStartOffset : Int)
    (amount : Option Int) : Selection :=
  let args : Int × Int :=
    match amount with
    | none => (0, extractionStartOffset)
    | some a => if a = 0 then (0, extractionStartOffset) else (extractionStartOffset, a)
  { s with cache := limitSweep args.1 args.2 0 s.cache }

/-- The join key computed for one entry of the secondary Selection: the value
at the referrer field if one is given (a non-string value matches no
string-keyed entry), the entry's own key otherwise. -/
def joinKeyOf (field : Option String) (entry : String × Document) : Option String :=
  match field with
  | none => some entry.1
  | some f =>
    match pathCastGet entry.2 (resolveKeyPath f) with
    | some (.str k) => some k
    | _ => none

/-- One step of `Selection.join`: look up the computed join key in the
primary working map and, only when a (truthy) match exists, let the merge
strategy rewrite the matched document in place. -/
def joinStep (joinStrategy : Document → String → Document → Document)
    (field : Option String) (current : MemoryStore) (entry : String × Document) :
    MemoryStore :=
  match joinKeyOf field entry with
  | none => current
  | some fieldId =>
    match alookup fieldId current with
    | none => current
    | some documentObject =>
      if truthy documentObject then
        areplace fieldId (joinStrategy documentObject entry.1 entry.2) current
      else current

/-- Selection.join: fold the secondary Selection's entries through
`joinStep`; non-matching rows are silently skipped. -/
def Selection.join (s : Selection) (secondarySelection : Selection)
    (joinStrategy : Document → String → Document → Document)
    (field : Option String) : Selection :=
  { s with cache := secondarySelection.cache.foldl (joinStep joinStrategy field) s.cache }

/-- The source's default configuration: managed cache, insertion and utility
caching on, no fetch-all, no assume-cache, no schema, defaults off. -/
def baseConfig : QDBConfiguration :=
  { cache := .managed, insertionCache := true, utilityCache := true,
    fetchAll := none, unsafeAssumeCache := false, dataSchema := none,
    defaults := false }

/-- A fresh Connection state: empty table, empty cache. -/
def emptyState : DbState :=
  { store := [], memory := [], clock := 0 }

/-- The always-refuse eviction policy, used as a concrete witness policy. -/
def refuseAll : EvictionAlg := fun _ => ([], false)

/-- The modify callback of the balance scenario: add fifty to a number. -/
def addFifty : Option Document → Document
  | some (.num n) => .num (n + 50)
  | _ => .null

/-- A schema model holding an empty items array. -/
def schemaItems : Document := .obj [("items", .arr [])]

/-- A configuration with a schema default and defaults enabled. -/
def cfgSchemaDefaults : QDBConfiguration :=
  { baseConfig with
      dataSchema := some schemaItems
      defaults := true }

/-- A configuration with the utility cache switched off. -/
def cfgUtilityOff : QDBConfiguration :=
  { baseConfig with utilityCache := false }

/-- A state whose store holds one document with a one-element items array. -/
def stateItemsA : DbState :=
  { store := [("u1", .obj [("items", .arr [.str "a"])])], memory := [], clock := 0 }

/-- A restricted single-slot configuration that also assumes the cache and
carries schema defaults - the combination behind the C4 counterexample. -/
def cfgRestrictedAssume : QDBConfiguration :=
  { baseConfig with
      cache := .restricted (some 1) refuseAll
      dataSchema := some schemaItems
      defaults := true
      unsafeAssumeCache := true }

/-- A plain restricted single-slot configuration. -/
def cfgRestrictedPlain : QDBConfiguration :=
  { baseConfig with cache := .restricted (some 1) refuseAll }

/-- A state whose single-slot cache is occupied by an unrelated resident. -/
def stateOneResident : DbState :=
  { store := [], memory := [("a", .obj [])], clock := 0 }

/-- A state holding a cached document complete with its bookkeeping
timestamp, as the base patch stores it. -/
def stateCachedU1 : DbState :=
  { store := [("u1", .obj [("a", .num 1)])],
    memory := [("u1", .obj [("a", .num 1), ("_timestamp", .num 0)])], clock := 1 }

/-- A managed configuration with schema defaults and assume-cache on - the
combination behind the C10 counterexample. -/
def cfgAssumeSchema : QDBConfiguration :=
  { baseConfig with
      dataSchema := some (.obj [("b", .bool true)])
      defaults := true
      unsafeAssumeCache := true }

/-- Schema well-formedness, modelled from the spec: a Schema's `model` is a
default Document shape, hence a structured container. -/
def SchemaWF (cfg : QDBConfiguration) : Prop :=
  ∀ model, cfg.dataSchema = some model → isDataModel model = true

theorem length_upsert_le {α : Type u} (k : String) (v : α) (l : List (String × α)) :
    (upsert k v l).length ≤ l.length + 1 := by
  induction l with
  | nil => simp [upsert]
  | cons p rest ih =>
    unfold upsert
    by_cases h : p.1 = k
    · rw [if_pos h]; simp
    · rw [if_neg h]; simpa using Nat.succ_le_succ ih

theorem length_upsert_of_mem {α : Type u} (k : String) (v : α) (l : List (String × α))
    (h : (alookup k l).isSome = true) : (upsert k v l).length = l.length := by
  induction l with
  | nil => simp [alookup] at h
  | cons p rest ih =>
    unfold upsert
    by_cases hp : p.1 = k
    · rw [if_pos hp]; rfl
    · rw [if_neg hp]
      have hr : (alookup k rest).isSome = true := by
        unfold alookup at h
        rwa [if_neg hp] at h
      simp [ih hr]

theorem length_eraseKeys_le {α : Type u} (victims : List String) (l : List (String × α)) :
    (eraseKeys victims l).length ≤ l.length :=
  List.length_filter_le _ l

theorem alookup_upsert_self {α : Type u} (k : String) (v : α) (l : List (String × α)) :
    alookup k (upsert k v l) = some v := by
  induction l with
  | nil => simp [upsert, alookup]
  | cons p rest ih =>
    unfold upsert
    by_cases h : p.1 = k
    · rw [if_pos h]; simp [alookup]
    · rw [if_neg h]
      unfold alookup
      rw [if_neg h]
      exact ih

theorem alookup_of_memHas (k : String) (m : MemoryStore) (h : memHas k m = true) :
    ∃ d, alookup k m = some d := by
  unfold memHas at h
  rcases halk : alookup k m with _ | d
  · rw [halk] at h; simp at h
  · exact ⟨d, rfl⟩

theorem alookup_of_not_memHas (k : String) (m : MemoryStore) (h : memHas k m = false) :
    alookup k m = none := by
  unfold memHas at h
  rcases halk : alookup k m with _ | d
  · rfl
  · rw [halk] at h; simp at h

theorem restrictedPatch_length_le (N : Nat) (alg : EvictionAlg)
    (Halg : ∀ m : MemoryStore, (alg m).2 = true →
      (eraseKeys (alg m).1 m).length < m.length)
    (m : MemoryStore) (k : String) (d : Document) (t : Nat) (hm : m.length ≤ N) :
    (RestrictedCacheStrategy.patch (some N) alg m k d t).length ≤ N := by
  unfold RestrictedCacheStrategy.patch
  by_cases hcond : (maxSizeReached (some N) m && !(memHas k m)) = true
  · rw [if_pos hcond]
    rcases halge : alg m with ⟨vs, b⟩
    cases b
    · simp only [halge]; exact hm
    · simp only [halge]
      have hlt : (eraseKeys vs m).length < m.length := by
        have h1 := Halg m (by rw [halge])
        rwa [halge] at h1
      unfold CacheStrategy.basePatch
      have h2 := length_upsert_le k (withTimestamp t d) (eraseKeys vs m)
      omega
  · rw [if_neg hcond]
    unfold CacheStrategy.basePatch
    by_cases hmem : memHas k m = true
    · rw [length_upsert_of_mem k (withTimestamp t d) m hmem]
      exact hm
    · have hmemf : memHas k m = false := by
        cases hmb : memHas k m
        · rfl
        · exact absurd hmb hmem
      have hfull : maxSizeReached (some N) m = false := by
        cases hms : maxSizeReached (some N) m
        · rfl
        · exact absurd (by rw [hms, hmemf]; rfl) hcond
      have hlen : m.length < N := by
        unfold maxSizeReached at hfull
        simpa using of_decide_eq_false hfull
      have h2 := length_upsert_le k (withTimestamp t d) m
      omega

theorem restrictedPatch_foldl_le (N : Nat) (alg : EvictionAlg)
    (Halg : ∀ m : MemoryStore, (alg m).2 = true →
      (eraseKeys (alg m).1 m).length < m.length)
    (operations : List (String × Document)) :
    ∀ m : MemoryStore, m.length ≤ N →
      (operations.foldl
        (fun acc op => RestrictedCacheStrategy.patch (some N) alg acc op.1 op.2 0)
        m).length ≤ N := by
  induction operations with
  | nil => intro m hm; simpa using hm
  | cons op rest ih =>
    intro m hm
    exact ih _ (restrictedPatch_length_le N alg Halg m op.1 op.2 0 hm)

/-- C1: for a restricted cache strategy with finite maxSize = N, under the
hypothesis that the eviction algorithm removes at least one entry from the
map whenever it returns true, any sequence of patch calls starting from the
empty map leaves the memory map with at most N entries. -/
theorem restricted_patch_size_bound (N : Nat) (alg : EvictionAlg)
    (Halg : ∀ m : MemoryStore, (alg m).2 = true →
      (eraseKeys (alg m).1 m).length < m.length)
    (operations : List (String × Document)) :
    (operations.foldl
      (fun acc op => RestrictedCacheStrategy.patch (some N) alg acc op.1 op.2 0)
      []).length ≤ N :=
  restrictedPatch_foldl_le N alg Halg operations [] (by simp)

/-- Witness for C1 at maxSize 1, the always-refuse policy and three patches. -/
theorem restricted_patch_size_bound_witness :
    ([("a", Document.null), ("b", Document.obj []), ("c", Document.null)].foldl
      (fun acc op => RestrictedCacheStrategy.patch (some 1) refuseAll acc op.1 op.2 0)
      []).length ≤ 1 :=
  restricted_patch_size_bound 1 refuseAll (fun _ h => nomatch h)
    [("a", Document.null), ("b", Document.obj []), ("c", Document.null)]

theorem limitSweep_id (extractionStartOffset amount : Int)
    (_hoff : 0 ≤ extractionStartOffset) (hamt : 0 ≤ amount) :
    ∀ (pointer : Int) (l : MemoryStore),
      limitSweep extractionStartOffset amount pointer l = l := by
  intro pointer l
  induction l generalizing pointer with
  | nil => rfl
  | cons p rest ih =>
    unfold limitSweep
    rw [if_neg (by omega), ih]

/-- C2: `Selection.limit` with a non-negative offset and amount (including
the single-argument form, which sets the offset to zero) removes no entry:
the working map is exactly what it was before the call, because the
exclusion test is unsatisfiable. -/
theorem limit_nonneg_noop (s : Selection) (extractionStartOffset : Int)
    (amount : Option Int) (hoff : 0 ≤ extractionStartOffset)
    (hamt : ∀ a : Int, amount = some a → 0 ≤ a) :
    Selection.limit s extractionStartOffset amount = s := by
  rcases s with ⟨c, h⟩
  unfold Selection.limit
  rcases amount with _ | a
  · simp only
    rw [limitSweep_id 0 extractionStartOffset (by omega) hoff 0 c]
  · simp only
    by_cases ha : a = 0
    · rw [if_pos ha]
      rw [limitSweep_id 0 extractionStartOffset (by omega) hoff 0 c]
    · rw [if_neg ha]
      rw [limitSweep_id extractionStartOffset a hoff (hamt a rfl) 0 c]

/-- Witness for C2 on a two-entry Selection with offset 0 and amount 1. -/
theorem limit_nonneg_noop_witness :
    Selection.limit ⟨[("a", Document.null), ("b", Document.null)], "T"⟩ 0 (some 1)
      = ⟨[("a", Document.null), ("b", Document.null)], "T"⟩ :=
  limit_nonneg_noop ⟨[("a", Document.null), ("b", Document.null)], "T"⟩ 0 (some 1)
    (by decide) (fun a h => by cases h; decide)

theorem map_fst_areplace {α : Type u} (k : String) (v : α) (l : List (String × α)) :
    (areplace k v l).map Prod.fst = l.map Prod.fst := by
  induction l with
  | nil => rfl
  | cons p rest ih =>
    unfold areplace
    by_cases h : p.1 = k
    · rw [if_pos h]; simp [h]
    · rw [if_neg h]; simp [ih]

theorem alookup_areplace_ne {α : Type u} (k q : String) (v : α) (l : List (String × α))
    (h : q ≠ k) : alookup q (areplace k v l) = alookup q l := by
  induction l with
  | nil => rfl
  | cons p rest ih =>
    unfold areplace
    by_cases hp : p.1 = k
    · rw [if_pos hp]
      unfold alookup
      have h1 : ¬ (k = q) := fun hh => h hh.symm
      have h2 : ¬ (p.1 = q) := by rw [hp]; exact h1
      rw [if_neg h1, if_neg h2]
    · rw [if_neg hp]
      unfold alookup
      by_cases hq : p.1 = q
      · rw [if_pos hq, if_pos hq]
      · rw [if_neg hq, if_neg hq]
        exact ih

theorem map_fst_joinStep (joinStrategy : Document → String → Document → Document)
    (field : Option String) (cur : MemoryStore) (e : String × Document) :
    (joinStep joinStrategy field cur e).map Prod.fst = cur.map Prod.fst := by
  rcases hjk : joinKeyOf field e with _ | fid
  · simp [joinStep, hjk]
  · rcases halk : alookup fid cur with _ | d
    · simp [joinStep, hjk, halk]
    · by_cases ht : truthy d = true
      · simp [joinStep, hjk, halk, ht, map_fst_areplace]
      · simp [joinStep, hjk, halk, ht]

theorem alookup_joinStep_ne (joinStrategy : Document → String → Document → Document)
    (field : Option String) (cur : MemoryStore) (e : String × Document) (k : String)
    (h : joinKeyOf field e ≠ some k) :
    alookup k (joinStep joinStrategy field cur e) = alookup k cur := by
  rcases hjk : joinKeyOf field e with _ | fid
  · simp [joinStep, hjk]
  · have hk : k ≠ fid := by
      intro hh
      exact h (by rw [hjk, hh])
    rcases halk : alookup fid cur with _ | d
    · simp [joinStep, hjk, halk]
    · by_cases ht : truthy d = true
      · simp only [joinStep, hjk, halk, if_pos ht]
        exact alookup_areplace_ne fid k _ cur hk
      · simp [joinStep, hjk, halk, ht]

theorem map_fst_join_foldl (joinStrategy : Document → String → Document → Document)
    (field : Option String) (entries : List (String × Document)) :
    ∀ cur : MemoryStore,
      (entries.foldl (joinStep joinStrategy field) cur).map Prod.fst
        = cur.map Prod.fst := by
  induction entries with
  | nil => intro cur; rfl
  | cons e rest ih =>
    intro cur
    rw [List.foldl_cons, ih (joinStep joinStrategy field cur e),
      map_fst_joinStep joinStrategy field cur e]

theorem alookup_join_foldl (joinStrategy : Document → String → Document → Document)
    (field : Option String) (k : String) (entries : List (String × Document)) :
    ∀ cur : MemoryStore,
      (∀ e ∈ entries, joinKeyOf field e ≠ some k) →
      alookup k (entries.foldl (joinStep joinStrategy field) cur) = alookup k cur := by
  induction entries with
  | nil => intro cur _; rfl
  | cons e rest ih =>
    intro cur hmiss
    rw [List.foldl_cons,
      ih (joinStep joinStrategy field cur e) (fun x hx => hmiss x (List.mem_cons_of_mem e hx)),
      alookup_joinStep_ne joinStrategy field cur e k (hmiss e (List.mem_cons_self e rest))]

/-- C9: `Selection.join` never adds or removes entries of the primary
Selection (its key sequence is unchanged), and every document whose key
matches no computed join key of the secondary Selection is left unchanged -
the merge strategy only ever acts on matched entries. -/
theorem join_frame (s secondarySelection : Selection)
    (joinStrategy : Document → String → Document → Document) (field : Option String) :
    (s.join secondarySelection joinStrategy field).cache.map Prod.fst
      = s.cache.map Prod.fst ∧
    ∀ k : String,
      (∀ e ∈ secondarySelection.cache, joinKeyOf field e ≠ some k) →
      alookup k (s.join secondarySelection joinStrategy field).cache
        = alookup k s.cache := by
  constructor
  · exact map_fst_join_foldl joinStrategy field secondarySelection.cache s.cache
  · intro k hmiss
    exact alookup_join_foldl joinStrategy field k secondarySelection.cache s.cache hmiss

/-- Witness for C9: the spec's skip-on-miss example - joining a Roles
Selection holding r1 into a Users Selection holding u1 with no matching key
leaves the Users working set untouched. -/
theorem join_frame_witness :
    (Selection.join ⟨[("u1", Document.obj [("name", Document.str "A")])], "Users"⟩
        ⟨[("r1", Document.obj [])], "Roles"⟩ (fun d _ _ => d) none).cache.map Prod.fst
      = [("u1", Document.obj [("name", Document.str "A")])].map Prod.fst ∧
    alookup "u1"
        (Selection.join ⟨[("u1", Document.obj [("name", Document.str "A")])], "Users"⟩
          ⟨[("r1", Document.obj [])], "Roles"⟩ (fun d _ _ => d) none).cache
      = alookup "u1" [("u1", Document.obj [("name", Document.str "A")])] := by
  constructor
  · exact (join_frame ⟨[("u1", Document.obj [("name", Document.str "A")])], "Users"⟩
      ⟨[("r1", Document.obj [])], "Roles"⟩ (fun d _ _ => d) none).1
  · exact (join_frame ⟨[("u1", Document.obj [("name", Document.str "A")])], "Users"⟩
      ⟨[("r1", Document.obj [])], "Roles"⟩ (fun d _ _ => d) none).2 "u1"
      (by intro e he
          have he1 : e = ("r1", Document.obj []) := by simpa using he
          rw [he1]
          simp [joinKeyOf])

/-- C7: starting from an empty store on a connection without schema
defaults, setting u1.balance to 100 and then modifying it with a
callback adding 50 makes a fetch of u1.balance return exactly 150. -/
theorem scenario_modify_balance :
    (Connection.fetch baseConfig
      (Connection.modify baseConfig
        (Connection.set baseConfig emptyState "u1.balance" (.num 100)
          baseConfig.insertionCache baseConfig.defaults).2
        "u1.balance" addFifty).2
      "u1.balance" (defaultFetchOpts baseConfig)).1 = some (.num 150) := rfl

/-- C8: pushing onto u1.items fails with a type error and leaves the state
untouched when the array is absent and no schema supplies one; with a
schema defaulting items to an empty array and defaults enabled, the same
push returns length 1 and a subsequent fetch of u1.items returns the
one-element array. -/
theorem scenario_push_schema_default :
    Connection.push baseConfig emptyState "u1.items" [.str "sword"]
      = (.error .typeError, emptyState) ∧
    (Connection.push cfgSchemaDefaults emptyState "u1.items" [.str "sword"]).1 = .ok 1 ∧
    (Connection.fetch cfgSchemaDefaults
      (Connection.push cfgSchemaDefaults emptyState "u1.items" [.str "sword"]).2
      "u1.items" (defaultFetchOpts cfgSchemaDefaults)).1 = some (.arr [.str "sword"]) :=
  ⟨rfl, rfl, rfl⟩

/-- C5 (code defect): with utilityCache disabled the array helpers still
admit the fetched document to the connection's cache, because the helper
passes the boolean flag in the options-object position and the cache option
falls back to its declared default of true. -/
theorem push_caches_despite_utilityCache_off :
    (Connection.push cfgUtilityOff stateItemsA "u1.items" [.str "b"]).1 = .ok 2 ∧
    memHas "u1" (Connection.push cfgUtilityOff stateItemsA "u1.items" [.str "b"]).2.memory
      = true ∧
    cfgUtilityOff.utilityCache = false :=
  ⟨rfl, rfl, rfl⟩

/-- C3 counterexample: a fetch with assumeCache true returns the raw cache
entry with its bookkeeping timestamp still present, so the timestamp is not
absent from every root-level return value. -/
theorem fetch_assume_returns_timestamp :
    (Connection.fetch baseConfig
      (Connection.set baseConfig emptyState "u1" (.obj [("a", .num 1)]) true false).2
      "u1" { cache := true, assumeCache := true, defaults := false }).1
      = some (.obj [("a", .num 1), ("_timestamp", .num 0)]) ∧
    hasField "_timestamp" (.obj [("a", .num 1), ("_timestamp", .num 0)]) = true :=
  ⟨rfl, rfl⟩

theorem any_filter_timestamp (fields : List (String × Document)) :
    ((fields.filter (fun p => !(decide (p.1 = "_timestamp")))).any
      (fun p => decide (p.1 = "_timestamp"))) = false := by
  induction fields with
  | nil => rfl
  | cons p rest ih =>
    by_cases h : p.1 = "_timestamp"
    · simp [List.filter_cons, h, ih]
    · simp [List.filter_cons, h, ih]

theorem hasField_stripRoot (m : Document) :
    hasField "_timestamp" (if isDataModel m then stripTimestamp m else m) = false := by
  cases m with
  | obj fields => exact any_filter_timestamp fields
  | arr xs => rfl
  | null => rfl
  | bool b => rfl
  | num n => rfl
  | str s => rfl

theorem fetchCore_cached_root (cfg : QDBConfiguration) (s : DbState) (k : String)
    (m : Document) (ca : Bool) (hm : alookup k s.memory = some m) :
    (fetchCore cfg s k [] ca).1
      = some (if isDataModel m then stripTimestamp m else m) := by
  unfold fetchCore
  simp only [hm]
  rfl

/-- C3 (amended): a fetch that reads a cache-held document with assumeCache
off returns the entry's value with the root-level bookkeeping timestamp
stripped, so no such root-level return carries a _timestamp field; the
assumeCache branch instead returns the raw cache entry, timestamp
included. -/
theorem fetch_cached_root_clean (cfg : QDBConfiguration) (s : DbState) (p : String)
    (m : Document) (ca df : Bool)
    (hp : resolveKeyPath p = [p]) (hm : alookup p s.memory = some m) :
    (Connection.fetch cfg s p { cache := ca, assumeCache := false, defaults := df }).1
      = some (if isDataModel m then stripTimestamp m else m) ∧
    hasField "_timestamp" (if isDataModel m then stripTimestamp m else m) = false := by
  refine ⟨?_, hasField_stripRoot m⟩
  have hroot : rootKey p = p := by unfold rootKey; rw [hp]; rfl
  have hpath : nestedPath p = [] := by unfold nestedPath; rw [hp]; rfl
  simp only [Connection.fetch, hroot, hpath, Bool.false_eq_true, if_false]
  cases df with
  | false =>
    cases hds : cfg.dataSchema with
    | none => exact fetchCore_cached_root cfg s p m ca hm
    | some model => exact fetchCore_cached_root cfg s p m ca hm
  | true =>
    cases hds : cfg.dataSchema with
    | none => exact fetchCore_cached_root cfg s p m ca hm
    | some model =>
      rcases hfc : fetchCore cfg s p [] ca with ⟨v, s₁⟩
      have hv : v = some (if isDataModel m then stripTimestamp m else m) := by
        have h1 := fetchCore_cached_root cfg s p m ca hm
        rw [hfc] at h1
        exact h1
      rw [hv]

/-- Witness for the amended C3 on a concrete cached document. -/
theorem fetch_cached_root_clean_witness :
    (Connection.fetch baseConfig stateCachedU1 "u1"
      { cache := true, assumeCache := false, defaults := false }).1
      = some (Document.obj [("a", Document.num 1)]) ∧
    hasField "_timestamp" (Document.obj [("a", Document.num 1)]) = false :=
  fetch_cached_root_clean baseConfig stateCachedU1 "u1"
    (Document.obj [("a", Document.num 1), ("_timestamp", Document.num 0)]) true false rfl rfl

/-- C6 counterexample: with schema defaults enabled, a root-level set of a
scalar still raises the type error before the write-through, but the
existence probe has already admitted the schema model for the key into the
cache, so the cache map is not left unchanged. -/
theorem set_root_scalar_cache_pollution :
    (Connection.set cfgSchemaDefaults emptyState "u1" (.num 5)
      cfgSchemaDefaults.insertionCache cfgSchemaDefaults.defaults).1
      = .error .invalidDocument ∧
    (Connection.set cfgSchemaDefaults emptyState "u1" (.num 5)
      cfgSchemaDefaults.insertionCache cfgSchemaDefaults.defaults).2.memory
      = [("u1", .obj [("items", .arr []), ("_timestamp", .num 0)])] ∧
    emptyState.memory = [] :=
  ⟨rfl, rfl, rfl⟩

theorem setCore_root_scalar (cfg : QDBConfiguration) (s : DbState) (k : String)
    (document : Document) (cache : Bool) (h : isDataModel document = false) :
    setCore cfg s k [] document cache = (.error .invalidDocument, s) := by
  simp [setCore, h]

/-- C6 (amended): a root-level set of a non-container raises the invalid
document error synchronously with both the cache map and the backing store
untouched, provided the defaults branch is inactive (per-call defaults off
or no schema configured); with defaults and a schema the existence probe
may admit an entry to the cache before the error is raised. -/
theorem set_root_scalar_error (cfg : QDBConfiguration) (s : DbState) (p : String)
    (document : Document)
    (hp : resolveKeyPath p = [p]) (hdoc : isDataModel document = false)
    (hnd : cfg.defaults = false ∨ cfg.dataSchema = none) :
    Connection.set cfg s p document cfg.insertionCache cfg.defaults
      = (.error .invalidDocument, s) := by
  have hroot : rootKey p = p := by unfold rootKey; rw [hp]; rfl
  have hpath : nestedPath p = [] := by unfold nestedPath; rw [hp]; rfl
  rcases hnd with h | h
  · cases hds : cfg.dataSchema with
    | none =>
      simp only [Connection.set, hroot, hpath, h, hds]
      exact setCore_root_scalar cfg s p document cfg.insertionCache hdoc
    | some model =>
      simp only [Connection.set, hroot, hpath, h, hds]
      exact setCore_root_scalar cfg s p document cfg.insertionCache hdoc
  · cases hdf : cfg.defaults with
    | false =>
      simp only [Connection.set, hroot, hpath, h, hdf]
      exact setCore_root_scalar cfg s p document cfg.insertionCache hdoc
    | true =>
      simp only [Connection.set, hroot, hpath, h, hdf]
      exact setCore_root_scalar cfg s p document cfg.insertionCache hdoc

/-- Witness for the amended C6 with the default configuration. -/
theorem set_root_scalar_error_witness :
    Connection.set baseConfig emptyState "u1" (.num 5)
      baseConfig.insertionCache baseConfig.defaults
      = (.error .invalidDocument, emptyState) :=
  set_root_scalar_error baseConfig emptyState "u1" (.num 5) rfl rfl (Or.inl rfl)

theorem truthy_of_isDataModel (d : Document) (h : isDataModel d = true) :
    truthy d = true := by
  cases d <;> simp_all [isDataModel, truthy]

theorem isDataModel_of_not_truthy (d : Document) (h : truthy d = false) :
    isDataModel d = false := by
  cases d <;> simp_all [isDataModel, truthy]

theorem fetch_assume_state (cfg : QDBConfiguration) (s : DbState) (p : String)
    (o : FetchOpts) (h : o.assumeCache = true) :
    (Connection.fetch cfg s p o).2 = s := by
  simp only [Connection.fetch, h, if_true]
  cases halk : alookup (rootKey p) s.memory <;> simp [halk]

theorem existsEntry_state (cfg : QDBConfiguration) (s : DbState) (p : String) (uc : Bool) :
    (Connection.existsEntry cfg s p uc).2
      = (Connection.fetch cfg s p
          { cache := uc, assumeCache := cfg.unsafeAssumeCache, defaults := cfg.defaults }).2 := by
  unfold Connection.existsEntry
  rcases hE : Connection.fetch cfg s p
    { cache := uc, assumeCache := cfg.unsafeAssumeCache, defaults := cfg.defaults } with ⟨v, s₁⟩
  rfl

theorem existsEntry_assume_memHas (cfg : QDBConfiguration) (s : DbState) (p : String)
    (uc : Bool) (hac : cfg.unsafeAssumeCache = true)
    (hp : resolveKeyPath p = [p]) (hmem : memHas p s.memory = true) :
    Connection.existsEntry cfg s p uc = (true, s) := by
  obtain ⟨d, hd⟩ := alookup_of_memHas p s.memory hmem
  have hroot : rootKey p = p := by unfold rootKey; rw [hp]; rfl
  have hpath : nestedPath p = [] := by unfold nestedPath; rw [hp]; rfl
  simp only [Connection.existsEntry, Connection.fetch, hroot, hpath, hac, if_true, hd]
  simp [pathCastGet]

theorem existsEntry_defaults_char (cfg : QDBConfiguration) (s : DbState) (p : String)
    (uc : Bool) (model : Document)
    (hac : cfg.unsafeAssumeCache = false) (hdf : cfg.defaults = true)
    (hds : cfg.dataSchema = some model) (hp : resolveKeyPath p = [p])
    (htm : truthy model = true) :
    (Connection.existsEntry cfg s p uc).1 = true := by
  have hroot : rootKey p = p := by unfold rootKey; rw [hp]; rfl
  have hpath : nestedPath p = [] := by unfold nestedPath; rw [hp]; rfl
  simp only [Connection.existsEntry, Connection.fetch, hroot, hpath, hac, hdf, hds]
  rcases hfc : fetchCore cfg s p [] uc with ⟨v, s₁⟩
  cases v with
  | none => simp [htm, pathCastGet]
  | some w => simp

theorem set_nonmodel_defaults_schema_error (cfg : QDBConfiguration) (s : DbState)
    (p : String) (document : Document) (ca : Bool) (model : Document)
    (hp : resolveKeyPath p = [p]) (hdoc : isDataModel document = false)
    (hdf : cfg.defaults = true) (hds : cfg.dataSchema = some model)
    (hac : cfg.unsafeAssumeCache = false) :
    (Connection.set cfg s p document ca cfg.defaults).1 = .error .invalidDocument := by
  have hroot : rootKey p = p := by unfold rootKey; rw [hp]; rfl
  have hpath : nestedPath p = [] := by unfold nestedPath; rw [hp]; rfl
  simp only [Connection.set, hroot, hpath, hdf, hds]
  rcases hex : Connection.existsEntry cfg s p cfg.utilityCache with ⟨ex, s₁⟩
  cases ex with
  | true =>
    show (setCore cfg s₁ p [] document ca).1 = Except.error QdbError.invalidDocument
    rw [setCore_root_scalar cfg s₁ p document ca hdoc]
  | false =>
    by_cases htm : truthy model = true
    · have h1 := existsEntry_defaults_char cfg s p cfg.utilityCache model hac hdf hds hp htm
      rw [hex] at h1
      simp at h1
    · have htf : truthy model = false := by
        cases ht2 : truthy model
        · rfl
        · exact absurd ht2 htm
      have hmod : isDataModel (clone model) = false := isDataModel_of_not_truthy model htf
      show (setCore cfg s₁ p [] (clone model) ca).1 = Except.error QdbError.invalidDocument
      rw [setCore_root_scalar cfg s₁ p (clone model) ca hmod]

theorem set_root_nonmodel_error (cfg : QDBConfiguration) (s : DbState) (p : String)
    (document : Document) (ca : Bool)
    (hp : resolveKeyPath p = [p]) (hdoc : isDataModel document = false)
    (hsafe : cfg.unsafeAssumeCache = false ∨ cfg.defaults = false ∨ cfg.dataSchema = none
      ∨ memHas p s.memory = true) :
    (Connection.set cfg s p document ca cfg.defaults).1 = .error .invalidDocument := by
  have hroot : rootKey p = p := by unfold rootKey; rw [hp]; rfl
  have hpath : nestedPath p = [] := by unfold nestedPath; rw [hp]; rfl
  cases hdf : cfg.defaults with
  | false =>
    cases hds : cfg.dataSchema with
    | none =>
      simp only [Connection.set, hroot, hpath, hdf, hds]
      rw [setCore_root_scalar cfg s p document ca hdoc]
    | some model =>
      simp only [Connection.set, hroot, hpath, hdf, hds]
      rw [setCore_root_scalar cfg s p document ca hdoc]
  | true =>
    cases hds : cfg.dataSchema with
    | none =>
      simp only [Connection.set, hroot, hpath, hdf, hds]
      rw [setCore_root_scalar cfg s p document ca hdoc]
    | some model =>
      by_cases hac : cfg.unsafeAssumeCache = true
      · have hmem : memHas p s.memory = true := by
          rcases hsafe with h | h | h | h
          · rw [hac] at h; exact absurd h (by simp)
          · rw [hdf] at h; exact absurd h (by simp)
          · rw [hds] at h; exact absurd h (by simp)
          · exact h
        have hprobe := existsEntry_assume_memHas cfg s p cfg.utilityCache hac hp hmem
        simp only [Connection.set, hroot, hpath, hds, hprobe]
        show (setCore cfg s p [] document ca).1 = Except.error QdbError.invalidDocument
        rw [setCore_root_scalar cfg s p document ca hdoc]
      · have hacf : cfg.unsafeAssumeCache = false := by
          cases h2 : cfg.unsafeAssumeCache
          · rfl
          · exact absurd h2 hac
        have h3 := set_nonmodel_defaults_schema_error cfg s p document ca model hp hdoc hdf
          hds hacf
        rw [hdf] at h3
        exact h3

/-- C10 (amended): a root-level invert raises the invalid document type
error and never returns, provided the connection does not combine
unsafeAssumeCache with defaults and a schema while the key is absent from
the cache; in that excluded combination the defaults branch of set stores
the schema model and the call returns normally. -/
theorem invert_root_error (cfg : QDBConfiguration) (s : DbState) (p : String)
    (hp : resolveKeyPath p = [p])
    (hsafe : cfg.unsafeAssumeCache = false ∨ cfg.defaults = false ∨ cfg.dataSchema = none
      ∨ memHas p s.memory = true) :
    (Connection.invert cfg s p).1 = .error .invalidDocument := by
  unfold Connection.invert
  rcases hf : Connection.fetch cfg s p (boolOptionsFetch cfg cfg.utilityCache) with ⟨v, s₁⟩
  dsimp only
  have hsafe₁ : cfg.unsafeAssumeCache = false ∨ cfg.defaults = false ∨ cfg.dataSchema = none
      ∨ memHas p s₁.memory = true := by
    rcases hsafe with h | h | h | h
    · exact Or.inl h
    · exact Or.inr (Or.inl h)
    · exact Or.inr (Or.inr (Or.inl h))
    · by_cases hac : cfg.unsafeAssumeCache = true
      · have hstate : (Connection.fetch cfg s p (boolOptionsFetch cfg cfg.utilityCache)).2 = s :=
          fetch_assume_state cfg s p (boolOptionsFetch cfg cfg.utilityCache) hac
        rw [hf] at hstate
        refine Or.inr (Or.inr (Or.inr ?_))
        rw [show s₁ = s from hstate]
        exact h
      · refine Or.inl ?_
        cases h2 : cfg.unsafeAssumeCache
        · rfl
        · exact absurd h2 hac
  have herr := set_root_nonmodel_error cfg s₁ p
    (.bool !(truthyOpt v)) cfg.insertionCache hp rfl hsafe₁
  rw [herr]

/-- C10 counterexample: with unsafeAssumeCache combined with defaults and a
schema, a root-level invert of an uncached key returns ok with the toggled
boolean - the defaults branch of set silently stores the schema model - so
the claim does not hold for every configuration and state. -/
theorem invert_root_succeeds_assume_schema :
    (Connection.invert cfgAssumeSchema emptyState "flag").1 = .ok true := rfl

/-- Witness for the amended C10 with the default configuration. -/
theorem invert_root_error_witness :
    (Connection.invert baseConfig emptyState "u1").1 = .error .invalidDocument :=
  invert_root_error baseConfig emptyState "u1" rfl (Or.inr (Or.inl rfl))

theorem patchConn_store (cfg : QDBConfiguration) (st : DbState) (k : String)
    (d : Document) : (patchConn cfg st k d).store = st.store := by
  unfold patchConn
  cases h : cfg.cache <;> rfl

theorem patchConn_refused_memory (cfg : QDBConfiguration) (st : DbState) (k : String)
    (d : Document) (N : Nat) (alg : EvictionAlg)
    (hstrat : cfg.cache = .restricted (some N) alg)
    (hcap : N ≤ st.memory.length)
    (hnew : memHas k st.memory = false)
    (hrefuse : (alg st.memory).2 = false) :
    (patchConn cfg st k d).memory = st.memory := by
  unfold patchConn
  rw [hstrat]
  show RestrictedCacheStrategy.patch (some N) alg st.memory k d st.clock = st.memory
  unfold RestrictedCacheStrategy.patch
  have hcond : (maxSizeReached (some N) st.memory && !(memHas k st.memory)) = true := by
    rw [hnew]
    unfold maxSizeReached
    simp [hcap]
  rw [if_pos hcond]
  rcases halg : alg st.memory with ⟨vs, b⟩
  have hb : b = false := by rw [halg] at hrefuse; exact hrefuse
  subst hb
  rfl

theorem fetchCore_refused (cfg : QDBConfiguration) (st : DbState) (k : String)
    (path : List String) (ca : Bool) (N : Nat) (alg : EvictionAlg)
    (hstrat : cfg.cache = .restricted (some N) alg)
    (hcap : N ≤ st.memory.length)
    (hnew : memHas k st.memory = false)
    (hrefuse : (alg st.memory).2 = false) :
    ((fetchCore cfg st k path ca).2).memory = st.memory ∧
    ((fetchCore cfg st k path ca).2).store = st.store := by
  unfold fetchCore
  have halk : alookup k st.memory = none := alookup_of_not_memHas k st.memory hnew
  simp only [halk]
  cases hst : alookup k st.store with
  | none => exact ⟨rfl, rfl⟩
  | some f =>
    simp only [hnew, Bool.not_false, Bool.and_true]
    cases ca with
    | false => exact ⟨rfl, rfl⟩
    | true =>
      constructor
      · exact patchConn_refused_memory cfg st k f N alg hstrat hcap hnew hrefuse
      · exact patchConn_store cfg st k f

theorem fetch_refused (cfg : QDBConfiguration) (st : DbState) (p : String)
    (o : FetchOpts) (N : Nat) (alg : EvictionAlg)
    (hp : resolveKeyPath p = [p])
    (hstrat : cfg.cache = .restricted (some N) alg)
    (hcap : N ≤ st.memory.length)
    (hnew : memHas p st.memory = false)
    (hrefuse : (alg st.memory).2 = false) :
    ((Connection.fetch cfg st p o).2).memory = st.memory ∧
    ((Connection.fetch cfg st p o).2).store = st.store := by
  have hroot : rootKey p = p := by unfold rootKey; rw [hp]; rfl
  have hpath : nestedPath p = [] := by unfold nestedPath; rw [hp]; rfl
  have halk : alookup p st.memory = none := alookup_of_not_memHas p st.memory hnew
  cases hac : o.assumeCache with
  | true =>
    simp only [Connection.fetch, hroot, hpath, hac, if_true, halk]
    simp
  | false =>
    simp only [Connection.fetch, hroot, hpath, hac]
    cases hdf : o.defaults with
    | false =>
      cases hds : cfg.dataSchema with
      | none => exact fetchCore_refused cfg st p [] o.cache N alg hstrat hcap hnew hrefuse
      | some model => exact fetchCore_refused cfg st p [] o.cache N alg hstrat hcap hnew hrefuse
    | true =>
      cases hds : cfg.dataSchema with
      | none => exact fetchCore_refused cfg st p [] o.cache N alg hstrat hcap hnew hrefuse
      | some model =>
        rcases hfc : fetchCore cfg st p [] o.cache with ⟨v, s₁⟩
        have hpres := fetchCore_refused cfg st p [] o.cache N alg hstrat hcap hnew hrefuse
        rw [hfc] at hpres
        cases v with
        | some w =>
          simp only [Bool.false_eq_true, if_false]
          exact hpres
        | none =>
          have h1 : s₁.memory = st.memory := hpres.1
          have h2 : s₁.store = st.store := hpres.2
          have hmem₁ : memHas p s₁.memory = false := by rw [h1]; exact hnew
          simp only [Bool.false_eq_true, if_false]
          by_cases htm : truthy model = true
          · rw [if_pos htm]
            cases hoc : o.cache with
            | false => exact ⟨h1, h2⟩
            | true =>
              simp only [hmem₁, Bool.not_false, Bool.and_true, if_true]
              constructor
              · rw [patchConn_refused_memory cfg s₁ p model N alg hstrat
                  (by rw [h1]; exact hcap) hmem₁ (by rw [h1]; exact hrefuse)]
                exact h1
              · rw [patchConn_store cfg s₁ p model]
                exact h2
          · rw [if_neg htm]
            exact hpres

theorem setCore_root_refused (cfg : QDBConfiguration) (st : DbState) (k : String)
    (document : Document) (ca : Bool) (N : Nat) (alg : EvictionAlg)
    (hstrat : cfg.cache = .restricted (some N) alg)
    (hcap : N ≤ st.memory.length)
    (hnew : memHas k st.memory = false)
    (hrefuse : (alg st.memory).2 = false)
    (hdoc : isDataModel document = true) :
    (setCore cfg st k [] document ca).1 = .ok () ∧
    (setCore cfg st k [] document ca).2.memory = st.memory ∧
    alookup k (setCore cfg st k [] document ca).2.store = some document := by
  have hred : setCore cfg st k [] document ca = (.ok (), finishSet cfg st k document ca) := by
    simp [setCore, hdoc]
  rw [hred]
  refine ⟨rfl, ?_, ?_⟩
  · show (finishSet cfg st k document ca).memory = st.memory
    unfold finishSet
    by_cases hg : (ca || fetchAllPositive cfg
        || memHas k ({ st with store := upsert k document st.store } : DbState).memory) = true
    · rw [if_pos hg]
      exact patchConn_refused_memory cfg { st with store := upsert k document st.store }
        k document N alg hstrat hcap hnew hrefuse
    · rw [if_neg hg]
  · show alookup k (finishSet cfg st k document ca).store = some document
    unfold finishSet
    by_cases hg : (ca || fetchAllPositive cfg
        || memHas k ({ st with store := upsert k document st.store } : DbState).memory) = true
    · rw [if_pos hg]
      rw [patchConn_store cfg { st with store := upsert k document st.store } k document]
      exact alookup_upsert_self k document st.store
    · rw [if_neg hg]
      exact alookup_upsert_self k document st.store

/-- C4 (amended): a root-level set at capacity for a new root key whose
eviction algorithm refuses the admission raises no error, leaves the cache
map exactly as it was, and still writes the document through to the backing
store - provided the connection does not combine unsafeAssumeCache with
defaults and a schema (in that combination the defaults branch stores the
schema model instead), and the schema model, if any, is a container. -/
theorem set_refused_admission (cfg : QDBConfiguration) (s : DbState) (p : String)
    (document : Document) (N : Nat) (alg : EvictionAlg)
    (hp : resolveKeyPath p = [p])
    (hstrat : cfg.cache = .restricted (some N) alg)
    (hcap : N ≤ s.memory.length)
    (hnew : memHas p s.memory = false)
    (hrefuse : (alg s.memory).2 = false)
    (hdoc : isDataModel document = true)
    (hsafe : cfg.unsafeAssumeCache = false ∨ cfg.defaults = false ∨ cfg.dataSchema = none)
    (hwf : SchemaWF cfg) :
    (Connection.set cfg s p document cfg.insertionCache cfg.defaults).1 = .ok () ∧
    (Connection.set cfg s p document cfg.insertionCache cfg.defaults).2.memory = s.memory ∧
    alookup p (Connection.set cfg s p document cfg.insertionCache cfg.defaults).2.store
      = some document := by
  have hroot : rootKey p = p := by unfold rootKey; rw [hp]; rfl
  have hpath : nestedPath p = [] := by unfold nestedPath; rw [hp]; rfl
  cases hdf : cfg.defaults with
  | false =>
    cases hds : cfg.dataSchema with
    | none =>
      simp only [Connection.set, hroot, hpath, hds]
      exact setCore_root_refused cfg s p document cfg.insertionCache N alg hstrat hcap
        hnew hrefuse hdoc
    | some model =>
      simp only [Connection.set, hroot, hpath, hds]
      exact setCore_root_refused cfg s p document cfg.insertionCache N alg hstrat hcap
        hnew hrefuse hdoc
  | true =>
    cases hds : cfg.dataSchema with
    | none =>
      simp only [Connection.set, hroot, hpath, hds]
      exact setCore_root_refused cfg s p document cfg.insertionCache N alg hstrat hcap
        hnew hrefuse hdoc
    | some model =>
      have hac : cfg.unsafeAssumeCache = false := by
        rcases hsafe with h | h | h
        · exact h
        · rw [hdf] at h; exact absurd h (by simp)
        · rw [hds] at h; exact absurd h (by simp)
      have hwfm : isDataModel model = true := hwf model hds
      have htm : truthy model = true := truthy_of_isDataModel model hwfm
      simp only [Connection.set, hroot, hpath, hds]
      rcases hex : Connection.existsEntry cfg s p cfg.utilityCache with ⟨ex, s₁⟩
      have hex1 : ex = true := by
        have h1 := existsEntry_defaults_char cfg s p cfg.utilityCache model hac hdf hds hp htm
        rw [hex] at h1
        exact h1
      subst hex1
      have hstate : s₁ = (Connection.fetch cfg s p
          { cache := cfg.utilityCache, assumeCache := cfg.unsafeAssumeCache,
            defaults := cfg.defaults }).2 := by
        have h3 := existsEntry_state cfg s p cfg.utilityCache
        rw [hex] at h3
        exact h3
      have hfr := fetch_refused cfg s p
        { cache := cfg.utilityCache, assumeCache := cfg.unsafeAssumeCache,
          defaults := cfg.defaults } N alg hp hstrat hcap hnew hrefuse
      have hmem1 : s₁.memory = s.memory := by rw [hstate]; exact hfr.1
      have hout := setCore_root_refused cfg s₁ p document cfg.insertionCache N alg hstrat
        (by rw [hmem1]; exact hcap) (by rw [hmem1]; exact hnew)
        (by rw [hmem1]; exact hrefuse) hdoc
      refine ⟨?_, ?_, ?_⟩
      · show (setCore cfg s₁ p [] document cfg.insertionCache).1 = .ok ()
        exact hout.1
      · show (setCore cfg s₁ p [] document cfg.insertionCache).2.memory = s.memory
        rw [hout.2.1]
        exact hmem1
      · show alookup p (setCore cfg s₁ p [] document cfg.insertionCache).2.store
          = some document
        exact hout.2.2

/-- C4 counterexample: combining unsafeAssumeCache with defaults and a
schema, a refused root-level set at capacity reports ok but persists the
schema model to the backing store rather than the written document. -/
theorem set_refused_writes_model :
    (Connection.set cfgRestrictedAssume stateOneResident "u1" (.obj [("x", .num 1)])
      cfgRestrictedAssume.insertionCache cfgRestrictedAssume.defaults).1 = .ok () ∧
    alookup "u1" (Connection.set cfgRestrictedAssume stateOneResident "u1"
      (.obj [("x", .num 1)])
      cfgRestrictedAssume.insertionCache cfgRestrictedAssume.defaults).2.store
      = some schemaItems ∧
    schemaItems ≠ Document.obj [("x", Document.num 1)] :=
  ⟨rfl, rfl, by simp [schemaItems]⟩

/-- Witness for the amended C4 on a single-slot restricted cache with the
always-refuse policy. -/
theorem set_refused_admission_witness :
    (Connection.set cfgRestrictedPlain stateOneResident "u1" (.obj [("x", .num 1)])
      cfgRestrictedPlain.insertionCache cfgRestrictedPlain.defaults).1 = .ok () ∧
    (Connection.set cfgRestrictedPlain stateOneResident "u1" (.obj [("x", .num 1)])
      cfgRestrictedPlain.insertionCache cfgRestrictedPlain.defaults).2.memory
      = stateOneResident.memory ∧
    alookup "u1" (Connection.set cfgRestrictedPlain stateOneResident "u1"
      (.obj [("x", .num 1)])
      cfgRestrictedPlain.insertionCache cfgRestrictedPlain.defaults).2.store
      = some (.obj [("x", .num 1)]) :=
  set_refused_admission cfgRestrictedPlain stateOneResident "u1" (.obj [("x", .num 1)])
    1 refuseAll rfl rfl (by decide) rfl rfl rfl (Or.inl rfl) (fun model h => nomatch h)
